import Mathlib

/-!
Verification development for the MCBE news plugin (`src/main.py`, `src/models.py`).

The plugin polls two article feeds, deduplicates articles against a durable
seen-id set, renders new articles (extracting images from the HTML body),
and delivers them to registered destinations.  This file gives a shallow
embedding of the state-mutating logic — `_fetch_articles`, `_check_updates`,
`_load_seen_articles`, the registration commands, and
`_extract_content_with_images` — and proves the spec's testable properties
about it.

Modelling conventions:
* Python strings that the code inspects character-by-character (image `src`
  URLs) are modelled as `List Char`; strings used only as opaque labels
  (tags, attribute names, version type, group ids) stay `String`.
* The article JSON model (`models.py`) declares many bookkeeping fields that
  the plugin logic never reads; only the fields the verified operations
  touch are carried in the `Article` structure here (`id` is the sole dedup
  key).  Fetch/validation failure is modelled by `Option`: `none` stands for
  any exception escaping the `try` body (network error, non-2xx status,
  validation failure).
* File I/O is modelled by a `Bool` recording whether `_save_seen_articles`
  was invoked, and by an explicit `FileState` for the startup load.
-/

namespace McbeNews

/-- A Python string, as the character sequence Python's `str` operations see. -/
abbrev Str := List Char

/-- The fields of `models.Article` that the plugin logic reads.  `id` is the
dedup key; `title` and `body` are carried to the renderer. -/
structure Article where
  id : Int
  title : String
  body : Str
deriving DecidableEq

/-- The per-feed dedup loop of `_fetch_articles` in normal (non-first-run)
mode: for each article in page order, an unseen id is appended to the new
list (paired with the version type, as the Python tuple) and immediately
added to the in-memory seen set. -/
def selectNewArticles (articles : List Article) (versionType : String)
    (seen : Finset Int) : List (Article × String) × Finset Int :=
  match articles with
  | [] => ([], seen)
  | a :: rest =>
    if a.id ∈ seen then
      selectNewArticles rest versionType seen
    else
      let res := selectNewArticles rest versionType (insert a.id seen)
      ((a, versionType) :: res.1, res.2)

/-- `_fetch_articles`: given the fetched listing (`none` = any fetch or
validation exception), the version-type label, the first-run flag and the
current seen set, return the new-article list, the updated seen set, and
whether `_save_seen_articles` was invoked. -/
def fetchArticles (result : Option (List Article)) (versionType : String)
    (isFirstRun : Bool) (seen : Finset Int) :
    List (Article × String) × Finset Int × Bool :=
  match result with
  | none => ([], seen, false)
  | some articles =>
    if isFirstRun then
      let seen2 := articles.foldl (fun s a => insert a.id s) seen
      let news : List (Article × String) :=
        match articles with
        | [] => []
        | a :: _ => [(a, versionType)]
      (news, seen2, true)
    else
      let res := selectNewArticles articles versionType seen
      (res.1, res.2, !res.1.isEmpty)

/-- The configuration options `_check_updates` consults. -/
structure Config where
  enableBetaMonitor : Bool
  enableReleaseMonitor : Bool
deriving DecidableEq

/-- The mutable plugin state threaded through the operations: the first-run
flag, the in-memory seen-id set, and the registered-group mapping
(a Python dict, i.e. an insertion-ordered association list with unique
keys). -/
structure PluginState where
  isFirstRun : Bool
  seenArticleIds : Finset Int
  registeredGroups : List (String × String)
deriving DecidableEq

/-- One guarded feed check inside `_check_updates`: when the feed is enabled,
run `_fetch_articles` against it and store the updated seen set; otherwise do
nothing.  Returns the feed's new articles, the updated state, and the save
flag. -/
def checkFeed (enabled : Bool) (result : Option (List Article))
    (versionType : String) (st : PluginState) :
    List (Article × String) × PluginState × Bool :=
  if enabled then
    let res := fetchArticles result versionType st.isFirstRun st.seenArticleIds
    (res.1, { st with seenArticleIds := res.2.1 }, res.2.2)
  else ([], st, false)

/-- `_check_updates`: check the beta feed, then the release feed, then clear
the first-run flag.  Returns the concatenated new-article list (beta first)
and the final state.  The two `Option` arguments are the outcomes of the two
HTTP fetches. -/
def checkUpdates (cfg : Config) (betaResult releaseResult : Option (List Article))
    (st : PluginState) : List (Article × String) × PluginState :=
  let beta := checkFeed cfg.enableBetaMonitor betaResult "Beta" st
  let rel := checkFeed cfg.enableReleaseMonitor releaseResult "Release" beta.2.1
  (beta.1 ++ rel.1, { rel.2.1 with isFirstRun := false })

/-- The state of the durable seen-ids file at startup: absent, or present
with the parse outcome (`none` = the `json.load`/shape step raised; `some
ids` = the decoded `seen_ids` list, defaulting to `[]` when the key is
missing). -/
inductive FileState where
  | absent : FileState
  | present : Option (List Int) → FileState
deriving DecidableEq

/-- `self.is_first_run = not self.seen_articles_file.exists()`: the flag is
derived from file existence alone. -/
def initIsFirstRun : FileState → Bool
  | .absent => true
  | .present _ => false

/-- `_load_seen_articles`: a missing file or any read/parse failure yields
the empty set; a parsed document yields the set of its `seen_ids`. -/
def loadSeenArticles : FileState → Finset Int
  | .absent => ∅
  | .present none => ∅
  | .present (some ids) => ids.toFinset

/-- Python dict assignment `d[k] = v`: replace the value of an existing key
in place, otherwise append the pair at the end (dicts preserve insertion
order). -/
def dictInsert (m : List (String × String)) (k v : String) :
    List (String × String) :=
  if (m.lookup k).isSome then
    m.map (fun p => if p.1 = k then (p.1, v) else p)
  else
    m ++ [(k, v)]

/-- The scan of `mcbe_unregister`: walk the entries in order and delete the
first pair whose stored address equals the caller's; return the new mapping
and whether anything was removed. -/
def unregisterByAddress (m : List (String × String)) (addr : String) :
    List (String × String) × Bool :=
  match m with
  | [] => ([], false)
  | p :: rest =>
    if p.2 = addr then (rest, true)
    else
      let res := unregisterByAddress rest addr
      (p :: res.1, res.2)

/-- `mcbe_register`: upsert the (group id, address) pair into the registry. -/
def mcbeRegister (st : PluginState) (groupId origin : String) : PluginState :=
  { st with registeredGroups := dictInsert st.registeredGroups groupId origin }

/-- `mcbe_unregister`: remove the first registry entry whose address matches
the caller's, reporting whether one was found. -/
def mcbeUnregister (st : PluginState) (origin : String) : PluginState × Bool :=
  let res := unregisterByAddress st.registeredGroups origin
  ({ st with registeredGroups := res.1 }, res.2)

/-- A node of the parsed HTML body (the tree BeautifulSoup hands back):
either an element with a tag name, an attribute mapping and children, or a
text node. -/
inductive Node where
  | element : String → List (String × Str) → List Node → Node
  | text : Str → Node

mutual

/-- A node together with all of its descendants, in document (preorder)
order. -/
def nodeSelfDescendants : Node → List Node
  | .text s => [.text s]
  | .element tag attrs children =>
    .element tag attrs children :: nodesDescendants children

/-- All nodes of a forest, in document (preorder) order. -/
def nodesDescendants : List Node → List Node
  | [] => []
  | n :: ns => nodeSelfDescendants n ++ nodesDescendants ns

end

/-- Whether a node is an element with the given tag. -/
def isTag (t : String) : Node → Bool
  | .element tag _ _ => tag = t
  | .text _ => false

/-- `soup.find_all(['figure', 'img'])`: every `figure` or `img` element of
the document, in document order (nested elements included). -/
def findAll (doc : List Node) : List Node :=
  (nodesDescendants doc).filter (fun n => isTag "figure" n || isTag "img" n)

/-- `element.get(key, '')`: the first value stored under the attribute key,
or the empty string. -/
def attrsGet (attrs : List (String × Str)) (key : String) : Str :=
  match attrs.lookup key with
  | some v => v
  | none => []

/-- `img.get('src', '')` on a node (only ever applied to `img` elements). -/
def imgSrc : Node → Str
  | .element _ attrs _ => attrsGet attrs "src"
  | .text _ => []

/-- `figure.find('img')`: the first `img` element among the figure's
descendants, in document order. -/
def findImg (children : List Node) : Option Node :=
  (nodesDescendants children).find? (isTag "img")

/-- `self.feedback_base_url`. -/
def feedbackBaseUrl : Str := "https://feedback.minecraft.net".toList

/-- Python `src.startswith('/')`. -/
def startsWithSlash : Str → Bool
  | '/' :: _ => true
  | _ => false

/-- The URL rewrite inside the extraction loop: a source starting with `/`
is prefixed with the feedback base URL, any other source is kept as is. -/
def resolveSrc (src : Str) : Str :=
  if startsWithSlash src then feedbackBaseUrl ++ src else src

/-- A message-chain component produced by the renderer: an image (by URL) or
a plain-text segment. -/
inductive Component where
  | image : Str → Component
  | plain : Str → Component
deriving DecidableEq

/-- `max_images`. -/
def maxImages : Nat := 10

/-- The body of the `for element in soup.find_all(['figure', 'img'])` loop of
`_extract_content_with_images`, with the loop state (emitted components,
image count, processed-source set) passed explicitly.  A `figure` contributes
its first descendant `img`; a bare `img` contributes itself; an emitted
source is resolved, appended as an image plus a newline separator, counted,
and recorded in the processed set. -/
def extractLoop (els : List Node) (components : List Component)
    (imageCount : Nat) (processedImgs : List Str) : List Component :=
  match els with
  | [] => components
  | el :: rest =>
    match el with
    | .element tag attrs children =>
      if tag = "figure" then
        match findImg children with
        | some img =>
          if imageCount < maxImages then
            let src := imgSrc img
            if src ≠ [] ∧ src ∉ processedImgs then
              let src2 := resolveSrc src
              extractLoop rest
                (components ++ [.image src2, .plain ['\n']])
                (imageCount + 1) (processedImgs ++ [src2])
            else extractLoop rest components imageCount processedImgs
          else extractLoop rest components imageCount processedImgs
        | none => extractLoop rest components imageCount processedImgs
      else if tag = "img" then
        let src := attrsGet attrs "src"
        if src ≠ [] ∧ src ∉ processedImgs ∧ imageCount < maxImages then
          let src2 := resolveSrc src
          extractLoop rest
            (components ++ [.image src2, .plain ['\n']])
            (imageCount + 1) (processedImgs ++ [src2])
        else extractLoop rest components imageCount processedImgs
      else extractLoop rest components imageCount processedImgs
    | .text _ => extractLoop rest components imageCount processedImgs

/-- `_extract_content_with_images`: run the extraction loop over all
`figure`/`img` elements of the parsed body with empty initial state. -/
def extractContentWithImages (doc : List Node) : List Component :=
  extractLoop (findAll doc) [] 0 []

/-- The image source an element of the extraction loop inspects, if any: a
`figure` yields its first descendant `img` source, a bare `img` its own
`src` attribute. -/
def candidateSrc : Node → Option Str
  | .element tag attrs children =>
    if tag = "figure" then
      match findImg children with
      | some img => some (imgSrc img)
      | none => none
    else if tag = "img" then some (attrsGet attrs "src")
    else none
  | .text _ => none

/-- The image URLs among a component list, in order. -/
def imagesOf (components : List Component) : List Str :=
  components.filterMap (fun c =>
    match c with
    | .image u => some u
    | .plain _ => none)

/-- The extraction loop restricted to the stream of candidate sources: emit
the resolved source whenever the raw source is nonempty and not yet in the
processed set. -/
def emitStream (srcs : List Str) (processedImgs : List Str) : List Str :=
  match srcs with
  | [] => []
  | src :: rest =>
    if src ≠ [] ∧ src ∉ processedImgs then
      resolveSrc src :: emitStream rest (processedImgs ++ [resolveSrc src])
    else emitStream rest processedImgs

/-- The extraction loop lowered onto the stream of candidate sources:
whenever the raw source is nonempty, not yet processed, and the image cap is
not reached, emit the resolved image with its newline separator and record
the resolved URL. -/
def srcLoop (srcs : List Str) (imageCount : Nat) (processedImgs : List Str) :
    List Component :=
  match srcs with
  | [] => []
  | src :: rest =>
    if src ≠ [] ∧ src ∉ processedImgs ∧ imageCount < maxImages then
      .image (resolveSrc src) :: .plain ['\n'] ::
        srcLoop rest (imageCount + 1) (processedImgs ++ [resolveSrc src])
    else srcLoop rest imageCount processedImgs

/-- A concrete body of eleven bare `img` elements with eleven distinct
root-relative sources, used to exercise the image cap. -/
def elevenImageBody : List Node :=
  [Node.element "img" [("src", "/i01.png".toList)] [],
    Node.element "img" [("src", "/i02.png".toList)] [],
    Node.element "img" [("src", "/i03.png".toList)] [],
    Node.element "img" [("src", "/i04.png".toList)] [],
    Node.element "img" [("src", "/i05.png".toList)] [],
    Node.element "img" [("src", "/i06.png".toList)] [],
    Node.element "img" [("src", "/i07.png".toList)] [],
    Node.element "img" [("src", "/i08.png".toList)] [],
    Node.element "img" [("src", "/i09.png".toList)] [],
    Node.element "img" [("src", "/i10.png".toList)] [],
    Node.element "img" [("src", "/i11.png".toList)] []]

/-! ### Lemmas about the per-feed dedup loop -/

theorem selectNewArticles_nil (vt : String) (seen : Finset Int) :
    selectNewArticles [] vt seen = ([], seen) := rfl

theorem selectNewArticles_cons_mem {a : Article} {seen : Finset Int}
    (vt : String) (rest : List Article) (h : a.id ∈ seen) :
    selectNewArticles (a :: rest) vt seen = selectNewArticles rest vt seen := by
  simp [selectNewArticles, h]

theorem selectNewArticles_cons_not_mem {a : Article} {seen : Finset Int}
    (vt : String) (rest : List Article) (h : a.id ∉ seen) :
    selectNewArticles (a :: rest) vt seen =
      ((a, vt) :: (selectNewArticles rest vt (insert a.id seen)).1,
        (selectNewArticles rest vt (insert a.id seen)).2) := by
  simp [selectNewArticles, h]

/-- The seen set after the normal-mode loop is the old set united with every
listed id (adding only the fresh ids adds all of them). -/
theorem selectNewArticles_seen (articles : List Article) (vt : String)
    (seen : Finset Int) :
    (selectNewArticles articles vt seen).2 =
      seen ∪ (articles.map Article.id).toFinset := by
  induction articles generalizing seen with
  | nil => simp [selectNewArticles_nil]
  | cons a rest ih =>
    by_cases h : a.id ∈ seen
    · rw [selectNewArticles_cons_mem vt rest h, ih]
      simp only [List.map_cons, List.toFinset_cons, Finset.union_insert]
      rw [Finset.insert_eq_self.mpr (Finset.mem_union_left _ h)]
    · rw [selectNewArticles_cons_not_mem vt rest h, ih]
      ext x
      simp only [Finset.mem_union, Finset.mem_insert, List.toFinset_cons,
        List.mem_toFinset, List.map_cons]
      tauto

/-- In normal mode with pairwise-distinct ids, the new-article list is
exactly the sublist of articles whose id is unseen, in page order, each
paired with the version type. -/
theorem selectNewArticles_eq_filter (articles : List Article) (vt : String)
    (seen : Finset Int) (h : (articles.map Article.id).Nodup) :
    (selectNewArticles articles vt seen).1 =
      (articles.filter (fun a => a.id ∉ seen)).map (fun a => (a, vt)) := by
  induction articles generalizing seen with
  | nil => simp [selectNewArticles_nil]
  | cons a rest ih =>
    simp only [List.map_cons, List.nodup_cons, List.mem_map] at h
    obtain ⟨hid, hrest⟩ := h
    by_cases hmem : a.id ∈ seen
    · rw [selectNewArticles_cons_mem vt rest hmem]
      rw [ih seen hrest]
      simp [List.filter_cons, hmem]
    · have hcong : rest.filter (fun b => b.id ∉ insert a.id seen) =
          rest.filter (fun b => b.id ∉ seen) := by
        apply List.filter_congr
        intro b hb
        have hne : b.id ≠ a.id := by
          intro he
          exact hid ⟨b, hb, he⟩
        simp [Finset.mem_insert, hne]
      rw [selectNewArticles_cons_not_mem vt rest hmem,
        ih (insert a.id seen) hrest, hcong]
      simp [List.filter_cons, hmem]

/-- A normal-mode check that finds nothing new leaves the seen set
unchanged, and conversely. -/
theorem selectNewArticles_isEmpty_iff (articles : List Article) (vt : String)
    (seen : Finset Int) :
    (selectNewArticles articles vt seen).1 = [] ↔
      (selectNewArticles articles vt seen).2 = seen := by
  induction articles generalizing seen with
  | nil => simp [selectNewArticles_nil]
  | cons a rest ih =>
    by_cases h : a.id ∈ seen
    · rw [selectNewArticles_cons_mem vt rest h]
      exact ih seen
    · rw [selectNewArticles_cons_not_mem vt rest h]
      show (a, vt) :: (selectNewArticles rest vt (insert a.id seen)).1 = [] ↔
        (selectNewArticles rest vt (insert a.id seen)).2 = seen
      constructor
      · intro hc
        exact absurd hc (List.cons_ne_nil _ _)
      · intro hc
        exfalso
        have hsub : insert a.id seen ⊆ (selectNewArticles rest vt (insert a.id seen)).2 := by
          rw [selectNewArticles_seen]
          exact Finset.subset_union_left
        rw [hc] at hsub
        exact h (hsub (Finset.mem_insert_self _ _))

/-- The first-run loop `for article in data.articles: seen.add(article.id)`
adds every listed id. -/
theorem foldl_insert_ids (articles : List Article) (seen : Finset Int) :
    articles.foldl (fun s a => insert a.id s) seen =
      seen ∪ (articles.map Article.id).toFinset := by
  induction articles generalizing seen with
  | nil => simp
  | cons a rest ih =>
    rw [List.foldl_cons, ih]
    ext x
    simp only [Finset.mem_union, Finset.mem_insert, List.map_cons,
      List.toFinset_cons, List.mem_toFinset]
    tauto

/-! ### Claims about `_fetch_articles` -/

/-- Claim C1: for every listing of articles with distinct ids checked in
normal (non-first-run) mode, the returned new-article list is exactly the
articles whose ids are absent from the prior seen set, in page order (newest
first), each paired with the version type; each such article appears exactly
once, and its id is added to the seen set (which becomes the prior set
united with all listed ids). -/
theorem fetchArticles_normal_new (articles : List Article) (vt : String)
    (seen : Finset Int) (h : (articles.map Article.id).Nodup) :
    (fetchArticles (some articles) vt false seen).1 =
      (articles.filter (fun a => a.id ∉ seen)).map (fun a => (a, vt)) ∧
    (fetchArticles (some articles) vt false seen).2.1 =
      seen ∪ (articles.map Article.id).toFinset ∧
    ((fetchArticles (some articles) vt false seen).1).Nodup ∧
    ∀ a ∈ articles, a.id ∉ seen →
      (a, vt) ∈ (fetchArticles (some articles) vt false seen).1 ∧
      a.id ∈ (fetchArticles (some articles) vt false seen).2.1 := by
  have e1 : (fetchArticles (some articles) vt false seen).1 =
      (selectNewArticles articles vt seen).1 := rfl
  have e2 : (fetchArticles (some articles) vt false seen).2.1 =
      (selectNewArticles articles vt seen).2 := rfl
  rw [e1, e2, selectNewArticles_eq_filter articles vt seen h,
    selectNewArticles_seen]
  have hinj : Function.Injective (fun a : Article => (a, vt)) := by
    intro x y hxy
    exact congrArg Prod.fst hxy
  have hnd : articles.Nodup := List.Nodup.of_map Article.id h
  refine ⟨rfl, rfl, (hnd.filter _).map hinj, ?_⟩
  intro a ha hnot
  constructor
  · exact List.mem_map_of_mem _
      (List.mem_filter.mpr ⟨ha, decide_eq_true hnot⟩)
  · simp only [Finset.mem_union, List.mem_toFinset, List.mem_map]
    exact Or.inr ⟨a, ha, rfl⟩

/-- Witness for C1 at the spec's example: listing `[id 5, id 4]` with prior
seen set `{4}` in normal mode yields new `[id 5]` and seen set `{4, 5}`. -/
theorem fetchArticles_normal_new_witness :
    (([⟨5, "t5", []⟩, ⟨4, "t4", []⟩] : List Article).map Article.id).Nodup ∧
    ((fetchArticles (some [⟨5, "t5", []⟩, ⟨4, "t4", []⟩]) "Release" false {4}).1 =
      (([⟨5, "t5", []⟩, ⟨4, "t4", []⟩] : List Article).filter
        (fun a => a.id ∉ ({4} : Finset Int))).map (fun a => (a, "Release")) ∧
    (fetchArticles (some [⟨5, "t5", []⟩, ⟨4, "t4", []⟩]) "Release" false {4}).2.1 =
      ({4} : Finset Int) ∪
        (([⟨5, "t5", []⟩, ⟨4, "t4", []⟩] : List Article).map Article.id).toFinset ∧
    ((fetchArticles (some [⟨5, "t5", []⟩, ⟨4, "t4", []⟩]) "Release" false {4}).1).Nodup ∧
    ∀ a ∈ ([⟨5, "t5", []⟩, ⟨4, "t4", []⟩] : List Article), a.id ∉ ({4} : Finset Int) →
      (a, "Release") ∈
        (fetchArticles (some [⟨5, "t5", []⟩, ⟨4, "t4", []⟩]) "Release" false {4}).1 ∧
      a.id ∈ (fetchArticles (some [⟨5, "t5", []⟩, ⟨4, "t4", []⟩]) "Release" false {4}).2.1) :=
  ⟨by decide, fetchArticles_normal_new [⟨5, "t5", []⟩, ⟨4, "t4", []⟩] "Release" {4} (by decide)⟩

/-- Claim C2: on a first-run fetch of a non-empty listing, exactly one
article — the first (newest) element — is reported as new, and afterwards
every listed article's id is in the seen set. -/
theorem fetchArticles_firstRun (articles : List Article) (vt : String)
    (seen : Finset Int) (h : articles ≠ []) :
    (fetchArticles (some articles) vt true seen).1 =
      [(articles.head h, vt)] ∧
    ∀ a ∈ articles, a.id ∈ (fetchArticles (some articles) vt true seen).2.1 := by
  match articles with
  | a :: rest =>
    refine ⟨rfl, ?_⟩
    intro b hb
    show b.id ∈ (a :: rest).foldl (fun s x => insert x.id s) seen
    rw [foldl_insert_ids]
    simp only [Finset.mem_union, List.mem_toFinset, List.mem_map]
    exact Or.inr ⟨b, hb, rfl⟩

/-- Witness for C2: a concrete two-article first-run fetch reports only the
newest article and marks both ids seen. -/
theorem fetchArticles_firstRun_witness :
    (([⟨7, "t7", []⟩, ⟨6, "t6", []⟩] : List Article) ≠ []) ∧
    ((fetchArticles (some [⟨7, "t7", []⟩, ⟨6, "t6", []⟩]) "Beta" true ∅).1 =
      [(([⟨7, "t7", []⟩, ⟨6, "t6", []⟩] : List Article).head (by decide), "Beta")] ∧
    ∀ a ∈ ([⟨7, "t7", []⟩, ⟨6, "t6", []⟩] : List Article),
      a.id ∈ (fetchArticles (some [⟨7, "t7", []⟩, ⟨6, "t6", []⟩]) "Beta" true ∅).2.1) :=
  ⟨by decide, fetchArticles_firstRun [⟨7, "t7", []⟩, ⟨6, "t6", []⟩] "Beta" ∅ (by decide)⟩

/-- Claim C7: a normal-mode check is idempotent on the seen-set state —
running it twice against an unchanged listing yields zero new articles the
second time. -/
theorem fetchArticles_normal_idempotent (articles : List Article)
    (vt : String) (seen : Finset Int) :
    (fetchArticles (some articles) vt false
      (fetchArticles (some articles) vt false seen).2.1).1 = [] := by
  show (selectNewArticles articles vt (selectNewArticles articles vt seen).2).1 = []
  rw [selectNewArticles_seen]
  induction articles with
  | nil => rfl
  | cons a rest ih =>
    have hmem : a.id ∈ seen ∪ ((a :: rest).map Article.id).toFinset := by
      simp
    rw [selectNewArticles_cons_mem vt rest hmem]
    have hsub : (rest.map Article.id).toFinset ⊆
        ((a :: rest).map Article.id).toFinset := by
      intro x hx
      simp only [List.map_cons, List.toFinset_cons, Finset.mem_insert]
      exact Or.inr hx
    have := selectNewArticles_isEmpty_iff rest vt
      (seen ∪ ((a :: rest).map Article.id).toFinset)
    rw [this, selectNewArticles_seen]
    ext x
    simp only [Finset.mem_union, List.mem_toFinset, List.map_cons,
      List.toFinset_cons, Finset.mem_insert]
    tauto

/-- Counterexample to claim C6 as stated: a first-run check against an
empty listing adds no ids (the seen set stays empty) yet still invokes the
persist operation — `_save_seen_articles()` is called unconditionally in the
first-run branch, so the durable file does not stay unwritten. -/
theorem fetchArticles_save_not_mutation_only :
    (fetchArticles (some ([] : List Article)) "Beta" true ∅).2.1 = ∅ ∧
    (fetchArticles (some ([] : List Article)) "Beta" true ∅).2.2 = true := by
  decide

/-- Claim C6 (amended): in normal mode the persist operation is invoked
exactly when the check mutated the seen set (a normal-mode check adding no
new ids leaves the file unwritten); in first-run mode it is invoked
unconditionally after a successful fetch, even when the listing is empty and
nothing was added; a failed fetch never persists. -/
theorem fetchArticles_save_policy (result : Option (List Article))
    (vt : String) (seen : Finset Int) :
    ((fetchArticles result vt false seen).2.2 = true ↔
      (fetchArticles result vt false seen).2.1 ≠ seen) ∧
    (∀ articles, result = some articles →
      (fetchArticles result vt true seen).2.2 = true) ∧
    (fetchArticles none vt false seen).2.2 = false := by
  refine ⟨?_, ?_, rfl⟩
  · match result with
    | none => simp [fetchArticles]
    | some articles =>
      show (!(selectNewArticles articles vt seen).1.isEmpty) = true ↔
        (selectNewArticles articles vt seen).2 ≠ seen
      rw [Bool.not_eq_true']
      rw [← Bool.not_eq_true (selectNewArticles articles vt seen).1.isEmpty]
      rw [List.isEmpty_iff]
      rw [not_iff_comm, not_not, selectNewArticles_isEmpty_iff]
  · rintro articles rfl
    rfl

/-- Witness for the amended C6 at concrete inputs: a normal check of `[id
9]` against seen set `{9}` adds nothing and does not save, while a first-run
check of the empty listing saves. -/
theorem fetchArticles_save_policy_witness :
    ((fetchArticles (some [⟨9, "t9", []⟩]) "Beta" false {9}).2.2 = true ↔
      (fetchArticles (some [⟨9, "t9", []⟩]) "Beta" false {9}).2.1 ≠ ({9} : Finset Int)) ∧
    (∀ articles, (some ([] : List Article)) = some articles →
      (fetchArticles (some ([] : List Article)) "Beta" true {9}).2.2 = true) ∧
    (fetchArticles none "Beta" false ({9} : Finset Int)).2.2 = false :=
  ⟨(fetchArticles_save_policy (some [⟨9, "t9", []⟩]) "Beta" {9}).1,
    (fetchArticles_save_policy (some ([] : List Article)) "Beta" {9}).2.1,
    (fetchArticles_save_policy none "Beta" {9}).2.2⟩

/-- Claim C10: when the seen-ids file exists at startup but fails to load or
parse, the first-run flag comes up false (it is derived from file existence
alone) with an empty seen set, so the next successful check runs in normal
mode and reports every article on the fetched page (with distinct ids) as
new. -/
theorem startup_corrupt_file_normal_mode (ids : Option (List Int)) :
    initIsFirstRun (.present ids) = false ∧
    loadSeenArticles (.present none) = ∅ ∧
    ∀ (articles : List Article) (vt : String),
      (articles.map Article.id).Nodup →
      (fetchArticles (some articles) vt (initIsFirstRun (.present none))
        (loadSeenArticles (.present none))).1 =
        articles.map (fun a => (a, vt)) := by
  refine ⟨rfl, rfl, ?_⟩
  intro articles vt h
  show (selectNewArticles articles vt ∅).1 = articles.map (fun a => (a, vt))
  rw [selectNewArticles_eq_filter articles vt ∅ h]
  congr 1
  apply List.filter_eq_self.mpr
  intro a _
  simp

/-- Witness for C10: a concrete two-article page is reported entirely new
after a corrupt-file startup. -/
theorem startup_corrupt_file_normal_mode_witness :
    (initIsFirstRun (.present none) = false ∧
      loadSeenArticles (.present none) = ∅ ∧
      ∀ (articles : List Article) (vt : String),
        (articles.map Article.id).Nodup →
        (fetchArticles (some articles) vt (initIsFirstRun (.present none))
          (loadSeenArticles (.present none))).1 =
          articles.map (fun a => (a, vt))) ∧
    ((([⟨2, "a", []⟩, ⟨1, "b", []⟩] : List Article).map Article.id).Nodup ∧
      (fetchArticles (some [⟨2, "a", []⟩, ⟨1, "b", []⟩]) "Release"
        (initIsFirstRun (.present none)) (loadSeenArticles (.present none))).1 =
        ([⟨2, "a", []⟩, ⟨1, "b", []⟩] : List Article).map (fun a => (a, "Release"))) :=
  ⟨startup_corrupt_file_normal_mode none,
    by decide,
    (startup_corrupt_file_normal_mode none).2.2 [⟨2, "a", []⟩, ⟨1, "b", []⟩]
      "Release" (by decide)⟩

/-! ### Claims about `_check_updates` -/

/-- Claim C3: in every check cycle the first-run flag ends up false, the
clearing happens only after both feeds were checked (the state produced by
the beta check and the state produced by the release check both still carry
the flag the cycle started with, whether or not the feeds were enabled or
succeeded), and no operation ever sets the flag back to true — register and
unregister leave it untouched. -/
theorem checkUpdates_firstRun_cleared (cfg : Config)
    (betaResult releaseResult : Option (List Article)) (st : PluginState)
    (g o : String) :
    (checkUpdates cfg betaResult releaseResult st).2.isFirstRun = false ∧
    (checkFeed cfg.enableBetaMonitor betaResult "Beta" st).2.1.isFirstRun =
      st.isFirstRun ∧
    (checkFeed cfg.enableReleaseMonitor releaseResult "Release"
        (checkFeed cfg.enableBetaMonitor betaResult "Beta" st).2.1).2.1.isFirstRun =
      st.isFirstRun ∧
    (mcbeRegister st g o).isFirstRun = st.isFirstRun ∧
    (mcbeUnregister st o).1.isFirstRun = st.isFirstRun := by
  cases hb : cfg.enableBetaMonitor <;> cases hr : cfg.enableReleaseMonitor <;>
    exact ⟨rfl, rfl, rfl, rfl, rfl⟩

/-- Claim C9: a fetch failure is caught inside the feed's own check and
treated as zero new articles with the seen set untouched and no persist; and
with the beta fetch failing while both feeds are enabled, the cycle still
reports exactly the release feed's new articles. -/
theorem checkUpdates_failure_isolation (cfg : Config)
    (releaseResult : Option (List Article)) (st : PluginState)
    (hb : cfg.enableBetaMonitor = true) (hr : cfg.enableReleaseMonitor = true) :
    (∀ (vt : String) (fr : Bool) (seen : Finset Int),
      fetchArticles none vt fr seen = ([], seen, false)) ∧
    (checkUpdates cfg none releaseResult st).1 =
      (fetchArticles releaseResult "Release" st.isFirstRun st.seenArticleIds).1 := by
  obtain ⟨b, r⟩ := cfg
  have hb' : b = true := hb
  have hr' : r = true := hr
  subst hb' hr'
  exact ⟨fun vt fr seen => rfl, rfl⟩

/-- Witness for C9: with beta failing, release succeeding and a fresh
normal-mode state, the cycle's output is the release feed's output. -/
theorem checkUpdates_failure_isolation_witness :
    ((⟨true, true⟩ : Config).enableBetaMonitor = true) ∧
    ((⟨true, true⟩ : Config).enableReleaseMonitor = true) ∧
    ((∀ (vt : String) (fr : Bool) (seen : Finset Int),
        fetchArticles none vt fr seen = ([], seen, false)) ∧
      (checkUpdates ⟨true, true⟩ none (some [⟨3, "c", []⟩])
          (⟨false, ∅, []⟩ : PluginState)).1 =
        (fetchArticles (some [⟨3, "c", []⟩]) "Release"
          (⟨false, ∅, []⟩ : PluginState).isFirstRun
          (⟨false, ∅, []⟩ : PluginState).seenArticleIds).1) :=
  ⟨rfl, rfl,
    checkUpdates_failure_isolation ⟨true, true⟩ (some [⟨3, "c", []⟩])
      ⟨false, ∅, []⟩ rfl rfl⟩

/-! ### Claims about the destination registry -/

/-- The unregister scan is removal of the first address match plus a
found-flag: it equals `eraseP` on the address predicate paired with `any`. -/
theorem unregisterByAddress_eq (m : List (String × String)) (addr : String) :
    unregisterByAddress m addr =
      (m.eraseP (fun p => decide (p.2 = addr)),
        m.any (fun p => decide (p.2 = addr))) := by
  induction m with
  | nil => rfl
  | cons p rest ih =>
    by_cases h : p.2 = addr
    · simp [unregisterByAddress, h, List.eraseP_cons, List.any_cons]
    · simp [unregisterByAddress, h, List.eraseP_cons, List.any_cons, ih]

/-- A successful `m.lookup` points at an actual entry of the list. -/
theorem lookup_some_mem {m : List (String × String)} {k v : String}
    (h : m.lookup k = some v) : (k, v) ∈ m := by
  induction m with
  | nil => simp [List.lookup] at h
  | cons p rest ih =>
    obtain ⟨k', v'⟩ := p
    simp only [List.lookup] at h
    cases hk : k == k' with
    | true =>
      simp only [hk] at h
      obtain rfl := Option.some.inj h
      have hkk : k = k' := eq_of_beq hk
      subst hkk
      exact List.mem_cons_self _ _
    | false =>
      simp only [hk] at h
      exact List.mem_cons_of_mem _ (ih h)

/-- After `register(key, addr)` the registry holds an entry whose stored
address is `addr` (either the overwritten entry under `key` or the appended
pair). -/
theorem dictInsert_mem_addr (m : List (String × String)) (k v : String) :
    ∃ p ∈ dictInsert m k v, p.2 = v := by
  unfold dictInsert
  split
  · rename_i h
    obtain ⟨w, hw⟩ := Option.isSome_iff_exists.mp h
    refine ⟨(k, v), ?_, rfl⟩
    have him := List.mem_map_of_mem
      (fun p : String × String => if p.1 = k then (p.1, v) else p)
      (lookup_some_mem hw)
    simpa using him
  · exact ⟨(k, v), List.mem_append_right _ (List.mem_singleton_self _), rfl⟩

/-- Claim C8: for every registry state, registering `(key, addr)` and then
unregistering by `addr` reports success and removes exactly the first entry
whose address matches (one entry disappears); unregistering an address with
no matching entry reports not-registered and leaves the registry
unchanged. -/
theorem registry_register_unregister_roundtrip :
    (∀ (m : List (String × String)) (k addr : String),
      (unregisterByAddress (dictInsert m k addr) addr).2 = true ∧
      (unregisterByAddress (dictInsert m k addr) addr).1 =
        (dictInsert m k addr).eraseP (fun p => decide (p.2 = addr)) ∧
      (unregisterByAddress (dictInsert m k addr) addr).1.length + 1 =
        (dictInsert m k addr).length) ∧
    (∀ (m : List (String × String)) (addr : String),
      (∀ p ∈ m, p.2 ≠ addr) → unregisterByAddress m addr = (m, false)) := by
  constructor
  · intro m k addr
    obtain ⟨p, hp, hpa⟩ := dictInsert_mem_addr m k addr
    rw [unregisterByAddress_eq]
    refine ⟨?_, rfl, ?_⟩
    · rw [List.any_eq_true]
      exact ⟨p, hp, decide_eq_true hpa⟩
    · have hlen := @List.length_eraseP_of_mem (String × String)
        (dictInsert m k addr) p (fun q => decide (q.2 = addr)) hp
        (decide_eq_true hpa)
      have hpos : 0 < (dictInsert m k addr).length :=
        List.length_pos_of_mem hp
      show (List.eraseP (fun q => decide (q.2 = addr))
        (dictInsert m k addr)).length + 1 = (dictInsert m k addr).length
      omega
  · intro m addr h
    rw [unregisterByAddress_eq, List.eraseP_of_forall_not, Prod.mk.injEq]
    · refine ⟨rfl, ?_⟩
      rw [List.any_eq_false]
      intro p hp
      simp [h p hp]
    · intro p hp
      simp [h p hp]

/-- Witness for C8: a concrete round trip on the one-entry registry
`[("g", "a")]` and a concrete failed unregister for an unknown address. -/
theorem registry_register_unregister_roundtrip_witness :
    ((unregisterByAddress (dictInsert [("g", "a")] "h" "b") "b").2 = true ∧
      (unregisterByAddress (dictInsert [("g", "a")] "h" "b") "b").1 =
        (dictInsert [("g", "a")] "h" "b").eraseP (fun p => decide (p.2 = "b")) ∧
      (unregisterByAddress (dictInsert [("g", "a")] "h" "b") "b").1.length + 1 =
        (dictInsert [("g", "a")] "h" "b").length) ∧
    ((∀ p ∈ [("g", "a")], p.2 ≠ "b") ∧
      unregisterByAddress [("g", "a")] "b" = ([("g", "a")], false)) :=
  ⟨registry_register_unregister_roundtrip.1 [("g", "a")] "h" "b",
    by decide,
    registry_register_unregister_roundtrip.2 [("g", "a")] "b" (by decide)⟩

/-! ### Lemmas about image extraction -/

/-- The base URL starts with `h`, so prefixing it never yields a string
starting with `/`. -/
theorem startsWithSlash_base_append (s : Str) :
    startsWithSlash (feedbackBaseUrl ++ s) = false := rfl

/-- Resolving is idempotent: a resolved URL never starts with `/`, so
resolving it again changes nothing. -/
theorem resolveSrc_idem (s : Str) : resolveSrc (resolveSrc s) = resolveSrc s := by
  unfold resolveSrc
  by_cases h : startsWithSlash s = true
  · rw [if_pos h, if_neg]
    rw [startsWithSlash_base_append]
    simp
  · rw [if_neg h, if_neg h]

/-- The extraction loop appends to the accumulated components exactly what
the source-stream loop produces from the candidate sources of the remaining
elements. -/
theorem extractLoop_eq_srcLoop (els : List Node) (comps : List Component)
    (n : Nat) (p : List Str) :
    extractLoop els comps n p =
      comps ++ srcLoop (els.filterMap candidateSrc) n p := by
  induction els generalizing comps n p with
  | nil => simp [extractLoop, srcLoop]
  | cons el rest ih =>
    cases el with
    | text s =>
      simpa [extractLoop, candidateSrc, List.filterMap_cons] using ih comps n p
    | element tag attrs children =>
      by_cases hf : tag = "figure"
      · subst hf
        cases himg : findImg children with
        | none =>
          simpa [extractLoop, candidateSrc, himg, List.filterMap_cons]
            using ih comps n p
        | some img =>
          by_cases h1 : imgSrc img = []
          · rw [show extractLoop (Node.element "figure" attrs children :: rest)
                  comps n p = extractLoop rest comps n p by
                simp [extractLoop, himg, h1]]
            rw [ih comps n p]
            simp [candidateSrc, himg, List.filterMap_cons, srcLoop, h1]
          · by_cases h2 : imgSrc img ∈ p
            · rw [show extractLoop (Node.element "figure" attrs children :: rest)
                    comps n p = extractLoop rest comps n p by
                  simp [extractLoop, himg, h2]]
              rw [ih comps n p]
              simp [candidateSrc, himg, List.filterMap_cons, srcLoop, h2]
            · by_cases hn : n < maxImages
              · rw [show extractLoop (Node.element "figure" attrs children :: rest)
                      comps n p =
                    extractLoop rest
                      (comps ++ [.image (resolveSrc (imgSrc img)), .plain ['\n']])
                      (n + 1) (p ++ [resolveSrc (imgSrc img)]) by
                    simp [extractLoop, himg, h1, h2, hn]]
                rw [ih]
                simp [candidateSrc, himg, List.filterMap_cons, srcLoop, h1, h2, hn]
              · rw [show extractLoop (Node.element "figure" attrs children :: rest)
                      comps n p = extractLoop rest comps n p by
                    simp [extractLoop, himg, hn]]
                rw [ih comps n p]
                simp [candidateSrc, himg, List.filterMap_cons, srcLoop, hn]
      · by_cases hi : tag = "img"
        · subst hi
          by_cases hc : attrsGet attrs "src" ≠ [] ∧
              attrsGet attrs "src" ∉ p ∧ n < maxImages
          · rw [show extractLoop (Node.element "img" attrs children :: rest)
                  comps n p =
                extractLoop rest
                  (comps ++ [.image (resolveSrc (attrsGet attrs "src")),
                    .plain ['\n']])
                  (n + 1) (p ++ [resolveSrc (attrsGet attrs "src")]) by
                simp [extractLoop, hf, hc]]
            rw [ih]
            simp [candidateSrc, hf, List.filterMap_cons, srcLoop, hc]
          · rw [show extractLoop (Node.element "img" attrs children :: rest)
                  comps n p = extractLoop rest comps n p by
                simp [extractLoop, hf, hc]]
            rw [ih comps n p]
            simp [candidateSrc, hf, List.filterMap_cons, srcLoop, hc]
        · rw [show extractLoop (Node.element tag attrs children :: rest)
                comps n p = extractLoop rest comps n p by
              simp [extractLoop, hf, hi]]
          rw [ih comps n p]
          simp [candidateSrc, hf, hi, List.filterMap_cons]

/-- The images of the capped source loop are the first `maxImages - n`
elements of the uncapped emission stream: once the cap is reached nothing
further is emitted and the state freezes. -/
theorem imagesOf_srcLoop (srcs : List Str) (n : Nat) (p : List Str) :
    imagesOf (srcLoop srcs n p) = (emitStream srcs p).take (maxImages - n) := by
  induction srcs generalizing n p with
  | nil => simp [srcLoop, emitStream, imagesOf]
  | cons src rest ih =>
    by_cases h1 : src ≠ [] ∧ src ∉ p
    · rw [show emitStream (src :: rest) p =
          resolveSrc src :: emitStream rest (p ++ [resolveSrc src]) by
        simp [emitStream, h1.1, h1.2]]
      by_cases hn : n < maxImages
      · rw [show srcLoop (src :: rest) n p =
            Component.image (resolveSrc src) :: Component.plain ['\n'] ::
              srcLoop rest (n + 1) (p ++ [resolveSrc src]) by
          simp [srcLoop, h1.1, h1.2, hn]]
        have hsub : maxImages - n = (maxImages - (n + 1)) + 1 := by omega
        rw [hsub, List.take_succ_cons]
        simp only [imagesOf, List.filterMap_cons]
        exact congrArg (List.cons (resolveSrc src))
          (ih (n + 1) (p ++ [resolveSrc src]))
      · have h1' : ¬(src ≠ [] ∧ src ∉ p ∧ n < maxImages) := fun hc => hn hc.2.2
        rw [show srcLoop (src :: rest) n p = srcLoop rest n p by
          simp [srcLoop, h1']]
        rw [ih n p]
        have h0 : maxImages - n = 0 := by omega
        simp [h0]
    · have h1' : ¬(src ≠ [] ∧ src ∉ p ∧ n < maxImages) := fun hc => h1 ⟨hc.1, hc.2.1⟩
      rw [show srcLoop (src :: rest) n p = srcLoop rest n p by
        simp [srcLoop, h1']]
      rw [show emitStream (src :: rest) p = emitStream rest p by
        simp [emitStream, h1]]
      exact ih n p

/-- The emission stream is a sublist of the resolved candidate sources, in
document order. -/
theorem emitStream_sublist (srcs : List Str) (p : List Str) :
    List.Sublist (emitStream srcs p) (srcs.map resolveSrc) := by
  induction srcs generalizing p with
  | nil => simp [emitStream]
  | cons src rest ih =>
    by_cases h : src ≠ [] ∧ src ∉ p
    · rw [show emitStream (src :: rest) p =
          resolveSrc src :: emitStream rest (p ++ [resolveSrc src]) by
        simp [emitStream, h.1, h.2]]
      simp only [List.map_cons]
      exact List.Sublist.cons₂ _ (ih _)
    · rw [show emitStream (src :: rest) p = emitStream rest p by
        simp [emitStream, h]]
      simp only [List.map_cons]
      exact List.Sublist.cons _ (ih p)

/-- Every nonempty candidate source's resolved URL ends up either already in
the processed set (when that set is closed under resolving) or in the
emission stream: the raw-membership test cannot skip a URL that was never
emitted. -/
theorem emitStream_covers (srcs : List Str) (p : List Str)
    (hp : ∀ x ∈ p, resolveSrc x = x)
    (s : Str) (hs : s ∈ srcs) (h0 : s ≠ []) :
    resolveSrc s ∈ p ∨ resolveSrc s ∈ emitStream srcs p := by
  induction srcs generalizing p with
  | nil => cases hs
  | cons src rest ih =>
    by_cases hc : src ≠ [] ∧ src ∉ p
    · rw [show emitStream (src :: rest) p =
          resolveSrc src :: emitStream rest (p ++ [resolveSrc src]) by
        simp [emitStream, hc.1, hc.2]]
      rcases List.mem_cons.mp hs with rfl | hrest
      · exact Or.inr (List.mem_cons_self _ _)
      · have hp' : ∀ x ∈ p ++ [resolveSrc src], resolveSrc x = x := by
          intro x hx
          rcases List.mem_append.mp hx with hx | hx
          · exact hp x hx
          · rw [List.mem_singleton.mp hx]
            exact resolveSrc_idem src
        rcases ih (p ++ [resolveSrc src]) hp' hrest with hin | hin
        · rcases List.mem_append.mp hin with hin | hin
          · exact Or.inl hin
          · rw [List.mem_singleton.mp hin]
            exact Or.inr (List.mem_cons_self _ _)
        · exact Or.inr (List.mem_cons_of_mem _ hin)
    · rw [show emitStream (src :: rest) p = emitStream rest p by
        simp [emitStream, hc]]
      rcases List.mem_cons.mp hs with rfl | hrest
      · have hmem : s ∈ p := by
          by_contra hnotp
          exact hc ⟨h0, hnotp⟩
        rw [hp s hmem]
        exact Or.inl hmem
      · exact ih p hp hrest

/-- With more than `k` distinct resolved nonempty sources, the uncapped
emission stream from an empty processed set is longer than `k`. -/
theorem emitStream_length_gt (srcs : List Str) (k : Nat)
    (h : k < ((srcs.filter (fun s => s ≠ [])).map resolveSrc).toFinset.card) :
    k < (emitStream srcs []).length := by
  have hsub : ((srcs.filter (fun s => s ≠ [])).map resolveSrc).toFinset ⊆
      (emitStream srcs []).toFinset := by
    intro x hx
    simp only [List.mem_toFinset, List.mem_map, List.mem_filter] at hx
    obtain ⟨s, ⟨hsmem, hsne⟩, rfl⟩ := hx
    have := emitStream_covers srcs [] (by intro x hx; cases hx) s hsmem
      (by simpa using hsne)
    rcases this with hin | hin
    · cases hin
    · exact List.mem_toFinset.mpr hin
  calc k < ((srcs.filter (fun s => s ≠ [])).map resolveSrc).toFinset.card := h
    _ ≤ (emitStream srcs []).toFinset.card := Finset.card_le_card hsub
    _ ≤ (emitStream srcs []).length := List.toFinset_card_le _

/-! ### Claims about image extraction -/

/-- Claim C4 fails on the code; this theorem evaluates the extraction at the
failing input.  A body referencing the same root-relative source twice emits
the image twice: the membership test uses the raw `src` while the processed
set stores the resolved URL, so the second occurrence of `/a.png` is not
recognised as already emitted.  (The in-code comment and the spec both call
for dedup by resolved URL.) -/
theorem extractImages_dup_root_relative :
    imagesOf (extractContentWithImages
      [Node.element "img" [("src", "/a.png".toList)] [],
        Node.element "img" [("src", "/a.png".toList)] []]) =
      ["https://feedback.minecraft.net/a.png".toList,
        "https://feedback.minecraft.net/a.png".toList] := by
  decide

/-- Claim C5: an HTML body whose candidate sources contain more than 10
distinct images (distinct resolved URLs among the nonempty sources) yields
exactly 10 emitted images, in document order (the emitted list is a sublist
of the resolved candidate stream); sources starting with `/` are rewritten
to absolute URLs against the feedback base origin; everything beyond the cap
is dropped. -/
theorem extractImages_cap (doc : List Node)
    (h : 10 < ((((findAll doc).filterMap candidateSrc).filter
      (fun s => s ≠ [])).map resolveSrc).toFinset.card) :
    (imagesOf (extractContentWithImages doc)).length = 10 ∧
    List.Sublist (imagesOf (extractContentWithImages doc))
      (((findAll doc).filterMap candidateSrc).map resolveSrc) ∧
    ∀ s : Str, startsWithSlash s = true → resolveSrc s = feedbackBaseUrl ++ s := by
  have he : extractContentWithImages doc =
      srcLoop ((findAll doc).filterMap candidateSrc) 0 [] := by
    unfold extractContentWithImages
    rw [extractLoop_eq_srcLoop]
    rfl
  have hlen := emitStream_length_gt ((findAll doc).filterMap candidateSrc) 10 h
  rw [he, imagesOf_srcLoop]
  have hm : maxImages - 0 = 10 := rfl
  rw [hm]
  refine ⟨?_, ?_, ?_⟩
  · rw [List.length_take]
    omega
  · exact (List.take_sublist _ _).trans
      (emitStream_sublist ((findAll doc).filterMap candidateSrc) [])
  · intro s hs
    unfold resolveSrc
    rw [if_pos hs]

/-- Witness for C5: the eleven-distinct-source body emits exactly 10
images. -/
theorem extractImages_cap_witness :
    (10 < ((((findAll elevenImageBody).filterMap candidateSrc).filter
      (fun s => s ≠ [])).map resolveSrc).toFinset.card) ∧
    ((imagesOf (extractContentWithImages elevenImageBody)).length = 10 ∧
    List.Sublist (imagesOf (extractContentWithImages elevenImageBody))
      (((findAll elevenImageBody).filterMap candidateSrc).map resolveSrc) ∧
    ∀ s : Str, startsWithSlash s = true → resolveSrc s = feedbackBaseUrl ++ s) :=
  ⟨by decide, extractImages_cap elevenImageBody (by decide)⟩

end McbeNews
